import Mathlib

/-!
Shallow embedding of the probability/optimization kernel of the
probability-optimizer repository (src/src/components/InputForm.tsx).

JavaScript numbers are modelled as exact rationals (ℚ); the sentinel
value negative infinity returned by calculateExpectationForP is modelled
by an Option ℚ, where none stands for negative infinity.  A JavaScript
Map from value to probability (whose keys are pairwise distinct) is
modelled as an association list List (ℚ × ℚ) with pairwise-distinct
first components.
-/

namespace ProbOpt

/-- Embedding of binomialCoefficient from InputForm.tsx: returns 0 when
k < 0 or k > n, 1 when k = 0 or k = n, and otherwise runs the
multiplicative loop result := result * (n - i) / (i + 1) for i = 0..k-1. -/
def binomialCoefficient (n k : ℤ) : ℚ :=
  if k < 0 ∨ n < k then 0
  else if k = 0 ∨ k = n then 1
  else (List.range k.toNat).foldl
    (fun result i => result * ((n : ℚ) - (i : ℚ)) / ((i : ℚ) + 1)) 1

/-- Embedding of calculateSDistribution from InputForm.tsx.  The source
fills a JavaScript Map in the loop k = 0..N; since the inserted keys
N + k*(r-1) are pairwise distinct in the general branch (r differs from 1
there), the Map's contents coincide with this association list in
insertion order.  The float literal 1e-10 is the rational 1/10^10. -/
def calculateSDistribution (N : ℕ) (p r : ℚ) : List (ℚ × ℚ) :=
  if |r - 1| < 1 / 10000000000 then [((N : ℚ), 1)]
  else if p = 0 then [((N : ℚ), 1)]
  else if p = 1 then [((N : ℚ) * r, 1)]
  else (List.range (N + 1)).map (fun (k : ℕ) =>
    ((N : ℚ) + (k : ℚ) * (r - 1),
     binomialCoefficient (N : ℤ) (k : ℤ) * p ^ k * (1 - p) ^ (N - k)))

/-- Lookup in the association-list model of the JavaScript Map:
sDistribution.get(value), defaulting to 0 when absent (the source only
calls get on present keys). -/
def distGet (d : List (ℚ × ℚ)) (v : ℚ) : ℚ :=
  ((d.find? (fun e => decide (e.1 = v))).map Prod.snd).getD 0

/-- Embedding of calculateMaxExpectation from InputForm.tsx: sort the
values ascending; a single-value distribution returns its value; otherwise
the source first builds the cdf map in ascending order and then sums
value * (cdf^A - prevCdf^A).  Because the Map keys are distinct, the two
passes of the source fuse into this single fold carrying the pair
(expectation so far, cumulative so far). -/
def calculateMaxExpectation (sDistribution : List (ℚ × ℚ)) (A : ℕ) : ℚ :=
  let sortedValues := List.insertionSort (fun a b => a ≤ b) (sDistribution.map Prod.fst)
  match sortedValues with
  | [v] => v
  | vs =>
    (vs.foldl (fun acc value =>
      let currentCdf := acc.2 + distGet sDistribution value
      (acc.1 + value * (currentCdf ^ A - acc.2 ^ A), currentCdf)) ((0 : ℚ), (0 : ℚ))).1

/-- Embedding of calculateR from InputForm.tsx: r = C - 2p. -/
def calculateR (p C : ℚ) : ℚ :=
  C - 2 * p

/-- Embedding of calculateExpectationForP from InputForm.tsx.  The
JavaScript value -Infinity is modelled as none. -/
def calculateExpectationForP (p : ℚ) (N A : ℕ) (C : ℚ) : Option ℚ :=
  let r := calculateR p C
  if r < 1 then none
  else some (calculateMaxExpectation (calculateSDistribution N p r) A)

/-- JavaScript strict less-than on numbers that may be -Infinity (none):
-Infinity < x iff x is finite; -Infinity < -Infinity is false. -/
def ltE : Option ℚ → Option ℚ → Bool
  | none, some _ => true
  | some a, some b => decide (a < b)
  | _, none => false

/-- Helper for the termination measure of the ternary-search loop: for a
positive tolerance, some power of 3/2 scales it past any given width. -/
theorem exists_ternary_bound (tolerance width : ℚ) (h : 0 < tolerance) :
    ∃ n : ℕ, width ≤ tolerance * (3 / 2 : ℚ) ^ n := by
  obtain ⟨n, hn⟩ := pow_unbounded_of_one_lt (α := ℚ) (width / tolerance)
    (by norm_num : (1 : ℚ) < 3 / 2)
  have h2 : width < (3 / 2 : ℚ) ^ n * tolerance := (div_lt_iff₀ h).mp hn
  exact ⟨n, le_of_lt (lt_of_lt_of_eq h2 (mul_comm _ _))⟩

/-- Termination measure for the ternary-search loop: the least n with
width ≤ tolerance * (3/2)^n, i.e. the base-3/2 logarithm of
width/tolerance, rounded up. -/
def ternarySteps (tolerance width : ℚ) : ℕ :=
  if h : 0 < tolerance then Nat.find (exists_ternary_bound tolerance width h) else 0

/-- Shrinking the interval width by the factor 2/3 strictly decreases the
termination measure while the width still exceeds the tolerance. -/
theorem ternarySteps_lt {tolerance w : ℚ} (h : 0 < tolerance) (hw : tolerance < w) :
    ternarySteps tolerance (w * 2 / 3) < ternarySteps tolerance w := by
  unfold ternarySteps
  rw [dif_pos h, dif_pos h]
  have hP : w ≤ tolerance * (3 / 2 : ℚ) ^ Nat.find (exists_ternary_bound tolerance w h) :=
    Nat.find_spec (exists_ternary_bound tolerance w h)
  have hn0 : Nat.find (exists_ternary_bound tolerance w h) ≠ 0 := by
    intro h0
    rw [h0, pow_zero, mul_one] at hP
    linarith
  obtain ⟨m, hm⟩ := Nat.exists_eq_succ_of_ne_zero hn0
  have hPm : w * 2 / 3 ≤ tolerance * (3 / 2 : ℚ) ^ m := by
    have h1 : w ≤ tolerance * (3 / 2 : ℚ) ^ (m + 1) := by
      rw [← Nat.succ_eq_add_one, ← hm]; exact hP
    have hx : tolerance * (3 / 2 : ℚ) ^ (m + 1) = tolerance * (3 / 2 : ℚ) ^ m * (3 / 2) := by
      ring
    rw [hx] at h1
    set X := tolerance * (3 / 2 : ℚ) ^ m with hX
    linarith
  have hle : Nat.find (exists_ternary_bound tolerance (w * 2 / 3) h) ≤ m :=
    Nat.find_le hPm
  rw [hm]
  exact Nat.lt_succ_of_le hle

/-- Embedding of the while loop of findOptimalP from InputForm.tsx
(ternary search).  The source loop runs while right - left > tolerance;
it only terminates for positive tolerance, so the guard here carries the
conjunct 0 < tolerance (every claim about the optimizer assumes it; for
tolerance ≤ 0 the source loop never exits). -/
def ternaryLoop (f : ℚ → Option ℚ) (tolerance left right : ℚ) : ℚ × ℚ :=
  if h : 0 < tolerance ∧ tolerance < right - left then
    let mid1 := left + (right - left) / 3
    let mid2 := right - (right - left) / 3
    if ltE (f mid1) (f mid2) then ternaryLoop f tolerance mid1 right
    else ternaryLoop f tolerance left mid2
  else (left, right)
termination_by ternarySteps tolerance (right - left)
decreasing_by
  · have h1 : right - (left + (right - left) / 3) = (right - left) * 2 / 3 := by ring
    rw [h1]
    exact ternarySteps_lt h.1 h.2
  · have h1 : right - (right - left) / 3 - left = (right - left) * 2 / 3 := by ring
    rw [h1]
    exact ternarySteps_lt h.1 h.2

/-- Result record of findOptimalP; maxExpectation is a JavaScript number
that can in principle be -Infinity, hence Option ℚ with none standing
for -Infinity. -/
structure OptimizationResult where
  optimalP : ℚ
  optimalR : ℚ
  maxExpectation : Option ℚ
deriving DecidableEq

/-- Embedding of findOptimalP from InputForm.tsx. -/
def findOptimalP (N A : ℕ) (C : ℚ) (tolerance : ℚ) : OptimizationResult :=
  if C < 1 then
    { optimalP := 0, optimalR := 1, maxExpectation := some (N : ℚ) }
  else
    let lr := ternaryLoop (fun p => calculateExpectationForP p N A C) tolerance 0
      (min 1 ((C - 1) / 2))
    let optimalP := (lr.1 + lr.2) / 2
    { optimalP := optimalP
      optimalR := calculateR optimalP C
      maxExpectation := calculateExpectationForP optimalP N A C }

/-- Point record of sensitivityAnalysis; the expectation stored is always
finite because infeasible points are filtered out before pushing. -/
structure SensitivityPoint where
  p : ℚ
  r : ℚ
  expectation : ℚ
deriving DecidableEq

/-- Embedding of sensitivityAnalysis from InputForm.tsx.  numSteps is the
(possibly negative) integer Math.floor(maxP/step); the loop for
i = 0..numSteps is rendered as List.range (numSteps + 1).toNat, which runs
zero times when numSteps is negative, as the source loop does. -/
def sensitivityAnalysis (N A : ℕ) (C step : ℚ) : List SensitivityPoint :=
  if C < 1 then [⟨0, 1, (N : ℚ)⟩]
  else
    let maxP : ℚ := min 1 ((C - 1) / 2)
    let numSteps : ℤ := ⌊maxP / step⌋
    let results := (List.range (numSteps + 1).toNat).filterMap (fun (i : ℕ) =>
      let p0 := (i : ℚ) * step
      let p := if p0 > maxP then maxP else p0
      match calculateExpectationForP p N A C with
      | none => none
      | some e => some ⟨p, calculateR p C, e⟩)
    let lastP : ℚ := (numSteps : ℚ) * step
    results ++
      (if lastP < maxP then
        match calculateExpectationForP maxP N A C with
        | none => []
        | some e => [⟨maxP, calculateR maxP C, e⟩]
      else [])

/-! ## Interval bounds of the ternary-search loop -/

/-- The ternary-search loop never leaves the initial interval and keeps
left ≤ right. -/
theorem ternaryLoop_bounds (f : ℚ → Option ℚ) (tolerance : ℚ) :
    ∀ left right : ℚ, left ≤ right →
      left ≤ (ternaryLoop f tolerance left right).1 ∧
      (ternaryLoop f tolerance left right).1 ≤ (ternaryLoop f tolerance left right).2 ∧
      (ternaryLoop f tolerance left right).2 ≤ right := by
  intro left right
  induction left, right using ternaryLoop.induct f tolerance with
  | case1 left right h mid1 mid2 hlt ih =>
    intro hlr
    rw [ternaryLoop, dif_pos h, if_pos hlt]
    have hm : left ≤ mid1 := by
      simp only [mid1]
      linarith [h.1, h.2]
    have ih2 := ih (by simp only [mid1]; linarith [h.1, h.2])
    exact ⟨le_trans hm ih2.1, ih2.2.1, ih2.2.2⟩
  | case2 left right h mid1 mid2 hlt ih =>
    intro hlr
    rw [ternaryLoop, dif_pos h, if_neg hlt]
    have hm : mid2 ≤ right := by
      simp only [mid2]
      linarith [h.1, h.2]
    have ih2 := ih (by simp only [mid2]; linarith [h.1, h.2])
    exact ⟨ih2.1, ih2.2.1, le_trans ih2.2.2 hm⟩
  | case3 left right h =>
    intro hlr
    rw [ternaryLoop, dif_neg h]
    exact ⟨le_refl _, hlr, le_refl _⟩

/-! ## Claim theorems -/

/-- C2: calculateSDistribution returns the single-point map (N, 1) when
|r - 1| < 1e-10 or p = 0; otherwise, when p = 1, the single-point map
(N*r, 1); otherwise, for 0 < p < 1, the list of N+1 pairs with key
N + k(r-1) and mass binomialCoefficient(N,k) p^k (1-p)^(N-k) for
k = 0..N, with pairwise-distinct keys; and the concrete case
calculateSDistribution 2 (1/2) 3 = [(2, 1/4), (4, 1/2), (6, 1/4)]. -/
theorem calculateSDistribution_spec (N : ℕ) (hN : 1 ≤ N) (p r : ℚ) :
    (|r - 1| < 1 / 10000000000 ∨ p = 0 → calculateSDistribution N p r = [((N : ℚ), 1)]) ∧
    (¬ |r - 1| < 1 / 10000000000 → p = 1 →
      calculateSDistribution N p r = [((N : ℚ) * r, 1)]) ∧
    (¬ |r - 1| < 1 / 10000000000 → 0 < p → p < 1 →
      calculateSDistribution N p r = (List.range (N + 1)).map (fun (k : ℕ) =>
        ((N : ℚ) + (k : ℚ) * (r - 1),
         binomialCoefficient (N : ℤ) (k : ℤ) * p ^ k * (1 - p) ^ (N - k))) ∧
      (calculateSDistribution N p r).length = N + 1 ∧
      ((calculateSDistribution N p r).map Prod.fst).Nodup) ∧
    calculateSDistribution 2 (1 / 2) 3 = [(2, 1 / 4), (4, 1 / 2), (6, 1 / 4)] := by
  refine ⟨?_, ?_, ?_, ?_⟩
  · rintro (h | h)
    · unfold calculateSDistribution
      rw [if_pos h]
    · by_cases habs : |r - 1| < 1 / 10000000000
      · unfold calculateSDistribution
        rw [if_pos habs]
      · unfold calculateSDistribution
        rw [if_neg habs, if_pos h]
  · intro habs hp
    unfold calculateSDistribution
    rw [if_neg habs, if_neg (by rw [hp]; norm_num : ¬p = 0), if_pos hp]
  · intro habs h0 h1
    have hbranch : calculateSDistribution N p r = (List.range (N + 1)).map (fun (k : ℕ) =>
        ((N : ℚ) + (k : ℚ) * (r - 1),
         binomialCoefficient (N : ℤ) (k : ℤ) * p ^ k * (1 - p) ^ (N - k))) := by
      unfold calculateSDistribution
      rw [if_neg habs, if_neg h0.ne', if_neg h1.ne]
    have hr1 : r - 1 ≠ 0 := by
      intro hz
      rw [hz] at habs
      simp at habs
    refine ⟨hbranch, by simp [hbranch], ?_⟩
    rw [hbranch, List.map_map]
    have hinj : Function.Injective (fun (k : ℕ) => (N : ℚ) + (k : ℚ) * (r - 1)) := by
      intro a b hab
      simp only [add_right_inj] at hab
      exact_mod_cast mul_right_cancel₀ hr1 hab
    exact (List.nodup_range (N + 1)).map (fun a b hab => hinj hab)
  · simp [calculateSDistribution, binomialCoefficient, List.range_succ]
    norm_num

/-- C4: calculateExpectationForP returns the negative-infinity sentinel
(none) exactly when C - 2p < 1, and otherwise the expected maximum of the
distribution built with r = C - 2p. -/
theorem calculateExpectationForP_spec (p C : ℚ) (N A : ℕ) (hN : 1 ≤ N) (hA : 1 ≤ A) :
    (calculateExpectationForP p N A C = none ↔ C - 2 * p < 1) ∧
    (¬ C - 2 * p < 1 →
      calculateExpectationForP p N A C =
        some (calculateMaxExpectation (calculateSDistribution N p (C - 2 * p)) A)) := by
  constructor
  · by_cases h : C - 2 * p < 1 <;> simp [calculateExpectationForP, calculateR, h]
  · intro h
    simp [calculateExpectationForP, calculateR, h]

/-- C5: for C < 1, findOptimalP returns exactly the fallback result
optimalP = 0, optimalR = 1, maxExpectation = N, for every tolerance. -/
theorem findOptimalP_lowC (N A : ℕ) (hN : 1 ≤ N) (hA : 1 ≤ A) (C tolerance : ℚ)
    (hC : C < 1) :
    findOptimalP N A C tolerance =
      { optimalP := 0, optimalR := 1, maxExpectation := some (N : ℚ) } := by
  simp [findOptimalP, hC]

/-- C6 counterexample: at N = 1, A = 1, C = 1/2, tolerance = 1, the
optimizer's fallback hard-codes optimalR = 1 while impliedR(optimalP, C)
is C - 0 = 1/2, so the round-trip identity fails for C < 1. -/
theorem roundTrip_counterexample :
    (findOptimalP 1 1 (1 / 2) 1).optimalR = 1 ∧
    calculateR (findOptimalP 1 1 (1 / 2) 1).optimalP (1 / 2) = 1 / 2 := by
  have h : findOptimalP 1 1 (1 / 2) 1 =
      { optimalP := 0, optimalR := 1, maxExpectation := some 1 } := by
    norm_num [findOptimalP]
  rw [h]
  norm_num [calculateR]

/-- C6 amended: for C ≥ 1 (a feasible constraint), impliedR applied to the
returned optimalP gives exactly the returned optimalR. -/
theorem roundTrip_highC (N A : ℕ) (hN : 1 ≤ N) (hA : 1 ≤ A) (C tolerance : ℚ)
    (htol : 0 < tolerance) (hC : 1 ≤ C) :
    calculateR (findOptimalP N A C tolerance).optimalP C =
      (findOptimalP N A C tolerance).optimalR := by
  simp only [findOptimalP, if_neg (not_lt.mpr hC)]

/-- C3: for C ≥ 1 the optimizer result satisfies optimalR = C - 2 optimalP,
optimalR ≥ 1 and optimalP in the feasible interval [0, min 1 ((C-1)/2)];
for C < 1 it returns optimalR = 1. -/
theorem findOptimalP_invariants (N A : ℕ) (hN : 1 ≤ N) (hA : 1 ≤ A) (C tolerance : ℚ)
    (htol : 0 < tolerance) :
    (1 ≤ C →
      (findOptimalP N A C tolerance).optimalR =
        C - 2 * (findOptimalP N A C tolerance).optimalP ∧
      1 ≤ (findOptimalP N A C tolerance).optimalR ∧
      0 ≤ (findOptimalP N A C tolerance).optimalP ∧
      (findOptimalP N A C tolerance).optimalP ≤ min 1 ((C - 1) / 2)) ∧
    (C < 1 → (findOptimalP N A C tolerance).optimalR = 1) := by
  constructor
  · intro hC
    have hmax0 : (0 : ℚ) ≤ min 1 ((C - 1) / 2) := le_min (by norm_num) (by linarith)
    obtain ⟨h1, h2, h3⟩ := ternaryLoop_bounds (fun p => calculateExpectationForP p N A C)
      tolerance 0 (min 1 ((C - 1) / 2)) hmax0
    have hmin : min 1 ((C - 1) / 2) ≤ (C - 1) / 2 := min_le_right _ _
    simp only [findOptimalP, if_neg (not_lt.mpr hC), calculateR]
    refine ⟨trivial, by linarith, by linarith, by linarith⟩
  · intro hC
    simp [findOptimalP, hC]

/-! ## Termination of the ternary-search loop -/

/-- Fuel-indexed version of the ternary-search loop: runs at most n
iterations of the source's while loop and stops early once
right - left ≤ tolerance. -/
def ternaryLoopFuel (f : ℚ → Option ℚ) (tolerance : ℚ) : ℕ → ℚ → ℚ → ℚ × ℚ
  | 0, left, right => (left, right)
  | n + 1, left, right =>
    if tolerance < right - left then
      let mid1 := left + (right - left) / 3
      let mid2 := right - (right - left) / 3
      if ltE (f mid1) (f mid2) then ternaryLoopFuel f tolerance n mid1 right
      else ternaryLoopFuel f tolerance n left mid2
    else (left, right)

/-- The termination measure is at most n as soon as the width is below
tolerance * (3/2)^n, i.e. it is logarithmic in width/tolerance. -/
theorem ternarySteps_le {tolerance w : ℚ} (ht : 0 < tolerance) {n : ℕ}
    (h : w ≤ tolerance * (3 / 2 : ℚ) ^ n) : ternarySteps tolerance w ≤ n := by
  unfold ternarySteps
  rw [dif_pos ht]
  exact Nat.find_le h

/-- The while loop of findOptimalP finishes within ternarySteps many
iterations: with that much fuel the fuel-indexed loop already computes the
loop's result. -/
theorem ternaryLoopFuel_eq (f : ℚ → Option ℚ) (tolerance : ℚ) (ht : 0 < tolerance) :
    ∀ (n : ℕ) (left right : ℚ), ternarySteps tolerance (right - left) ≤ n →
      ternaryLoopFuel f tolerance n left right = ternaryLoop f tolerance left right := by
  intro n
  induction n with
  | zero =>
    intro l r hle
    have h0 : ternarySteps tolerance (r - l) = 0 := Nat.le_zero.mp hle
    have hP : r - l ≤ tolerance := by
      unfold ternarySteps at h0
      rw [dif_pos ht] at h0
      have hfind := (Nat.find_eq_zero (exists_ternary_bound tolerance (r - l) ht)).mp h0
      simpa using hfind
    rw [ternaryLoopFuel, ternaryLoop, dif_neg (fun hc => absurd hc.2 (not_lt.mpr hP))]
  | succ n ih =>
    intro l r hle
    by_cases hg : tolerance < r - l
    · rw [ternaryLoopFuel, if_pos hg, ternaryLoop, dif_pos ⟨ht, hg⟩]
      have hstep : ternarySteps tolerance ((r - l) * 2 / 3) < ternarySteps tolerance (r - l) :=
        ternarySteps_lt ht hg
      by_cases hb : ltE (f (l + (r - l) / 3)) (f (r - (r - l) / 3)) = true
      · rw [if_pos hb, if_pos hb]
        apply ih
        have harg : r - (l + (r - l) / 3) = (r - l) * 2 / 3 := by ring
        rw [harg]
        omega
      · rw [if_neg hb, if_neg hb]
        apply ih
        have harg : r - (r - l) / 3 - l = (r - l) * 2 / 3 := by ring
        rw [harg]
        omega
    · rw [ternaryLoopFuel, if_neg hg, ternaryLoop, dif_neg (fun hc => hg hc.2)]

/-- C9: findOptimalP terminates.  For C < 1 it returns immediately; for
C ≥ 1 the while loop shrinks the interval by the factor 2/3 each pass, so
whenever the initial width min 1 ((C-1)/2) is at most tolerance * (3/2)^n
— i.e. n is of order log(1/tolerance) — the loop completes within n
iterations, and findOptimalP equals the n-fuel computation.  Totality
itself is witnessed by ternaryLoop being a terminating definition with
measure ternarySteps. -/
theorem findOptimalP_terminates (N A : ℕ) (C tolerance : ℚ) (ht : 0 < tolerance) (n : ℕ) :
    (C < 1 → findOptimalP N A C tolerance =
      { optimalP := 0, optimalR := 1, maxExpectation := some (N : ℚ) }) ∧
    (1 ≤ C → min 1 ((C - 1) / 2) ≤ tolerance * (3 / 2 : ℚ) ^ n →
      findOptimalP N A C tolerance =
        (let lr := ternaryLoopFuel (fun p => calculateExpectationForP p N A C) tolerance n 0
            (min 1 ((C - 1) / 2))
         let optimalP := (lr.1 + lr.2) / 2
         { optimalP := optimalP
           optimalR := calculateR optimalP C
           maxExpectation := calculateExpectationForP optimalP N A C })) := by
  constructor
  · intro hC
    simp [findOptimalP, hC]
  · intro hC hn
    have heq := ternaryLoopFuel_eq (fun p => calculateExpectationForP p N A C) tolerance ht n 0
      (min 1 ((C - 1) / 2)) (ternarySteps_le ht (by simpa using hn))
    simp only [findOptimalP, if_neg (not_lt.mpr hC)]
    rw [← heq]

/-! ## The expected-maximum formula and its monotonicity in A -/

/-- Formula stated by the spec for the expectation of the maximum of A
i.i.d. draws: processing the (value, probability) pairs in ascending value
order with running cumulative F (starting from F_0 = 0), sum the terms
v_i * (F_i^A - F_{i-1}^A). -/
def specMaxSum (A : ℕ) : ℚ → List (ℚ × ℚ) → ℚ
  | _, [] => 0
  | F, e :: rest => e.1 * ((F + e.2) ^ A - F ^ A) + specMaxSum A (F + e.2) rest

/-- Unfolding equation of specMaxSum on a cons cell. -/
theorem specMaxSum_cons (A : ℕ) (F : ℚ) (e : ℚ × ℚ) (rest : List (ℚ × ℚ)) :
    specMaxSum A F (e :: rest) =
      e.1 * ((F + e.2) ^ A - F ^ A) + specMaxSum A (F + e.2) rest := rfl

/-- Unfolding equation of specMaxSum on the empty list. -/
theorem specMaxSum_nil (A : ℕ) (F : ℚ) : specMaxSum A F [] = 0 := rfl

/-- Value/probability pairs of a distribution, listed in ascending value
order (the order in which calculateMaxExpectation processes the Map). -/
def sortedPairs (d : List (ℚ × ℚ)) : List (ℚ × ℚ) :=
  (List.insertionSort (fun a b => a ≤ b) (d.map Prod.fst)).map (fun v => (v, distGet d v))

/-- On a distribution with pairwise-distinct keys, looking up the key of an
entry returns that entry's mass. -/
theorem distGet_eq : ∀ {d : List (ℚ × ℚ)}, (d.map Prod.fst).Nodup →
    ∀ {e : ℚ × ℚ}, e ∈ d → distGet d e.1 = e.2 := by
  intro d
  induction d with
  | nil =>
    intro _ e he
    cases he
  | cons f t ih =>
    intro hkeys e he
    have hk := hkeys
    simp only [List.map_cons, List.nodup_cons] at hk
    rcases List.mem_cons.mp he with rfl | ht
    · unfold distGet
      rw [List.find?_cons_of_pos _ (by simp)]
      rfl
    · have hne : ¬ f.1 = e.1 := by
        intro h
        exact hk.1 (h ▸ List.mem_map_of_mem Prod.fst ht)
      unfold distGet
      rw [List.find?_cons_of_neg _ (by simp [hne])]
      exact ih hk.2 ht

/-- The fold of calculateMaxExpectation computes the spec's formula over
the looked-up pairs, for any starting accumulator. -/
theorem foldl_specMaxSum (d : List (ℚ × ℚ)) (A : ℕ) :
    ∀ (vs : List ℚ) (a c : ℚ),
      (vs.foldl (fun acc value =>
        let currentCdf := acc.2 + distGet d value
        (acc.1 + value * (currentCdf ^ A - acc.2 ^ A), currentCdf)) (a, c)).1 =
      a + specMaxSum A c (vs.map (fun v => (v, distGet d v))) := by
  intro vs
  induction vs with
  | nil =>
    intro a c
    simp [specMaxSum]
  | cons v t ih =>
    intro a c
    simp only [List.foldl_cons, List.map_cons, specMaxSum_cons]
    rw [ih]
    ring

/-- On a distribution with at least two entries, calculateMaxExpectation
computes the spec formula over the pairs in ascending value order. -/
theorem calculateMaxExpectation_eq (d : List (ℚ × ℚ)) (A : ℕ) (hlen : 2 ≤ d.length) :
    calculateMaxExpectation d A = specMaxSum A 0 (sortedPairs d) := by
  have hlen2 : 2 ≤ (List.insertionSort (fun a b => a ≤ b) (d.map Prod.fst)).length := by
    rw [(List.perm_insertionSort _ _).length_eq, List.length_map]
    exact hlen
  rcases hvs : List.insertionSort (fun a b => a ≤ b) (d.map Prod.fst) with _ | ⟨v1, vs'⟩
  · rw [hvs] at hlen2
    simp at hlen2
  rcases vs' with _ | ⟨v2, t⟩
  · rw [hvs] at hlen2
    simp at hlen2
  unfold calculateMaxExpectation sortedPairs
  rw [hvs]
  show ((v1 :: v2 :: t).foldl (fun acc value =>
      let currentCdf := acc.2 + distGet d value
      (acc.1 + value * (currentCdf ^ A - acc.2 ^ A), currentCdf)) ((0 : ℚ), (0 : ℚ))).1 =
    specMaxSum A 0 ((v1 :: v2 :: t).map (fun v => (v, distGet d v)))
  rw [foldl_specMaxSum d A (v1 :: v2 :: t) 0 0, zero_add]

/-- The masses of sortedPairs are a permutation of the distribution's
masses (keys distinct). -/
theorem sortedPairs_masses_perm (d : List (ℚ × ℚ)) (hkeys : (d.map Prod.fst).Nodup) :
    ((sortedPairs d).map Prod.snd).Perm (d.map Prod.snd) := by
  unfold sortedPairs
  rw [List.map_map]
  have h1 : ((List.insertionSort (fun a b => a ≤ b) (d.map Prod.fst)).map
      (fun v => distGet d v)).Perm ((d.map Prod.fst).map (fun v => distGet d v)) :=
    (List.perm_insertionSort _ _).map _
  have h2 : (d.map Prod.fst).map (fun v => distGet d v) = d.map Prod.snd := by
    rw [List.map_map]
    exact List.map_congr_left (fun e he => distGet_eq hkeys he)
  rw [← h2]
  exact h1

/-- All masses occurring in sortedPairs are non-negative when those of the
distribution are. -/
theorem sortedPairs_nonneg (d : List (ℚ × ℚ)) (hkeys : (d.map Prod.fst).Nodup)
    (hnn : ∀ e ∈ d, 0 ≤ e.2) : ∀ e ∈ sortedPairs d, 0 ≤ e.2 := by
  intro e he
  unfold sortedPairs at he
  obtain ⟨v, hv, rfl⟩ := List.mem_map.mp he
  have hv2 : v ∈ d.map Prod.fst := (List.perm_insertionSort _ _).subset hv
  obtain ⟨e', he', rfl⟩ := List.mem_map.mp hv2
  show 0 ≤ distGet d e'.1
  rw [distGet_eq hkeys he']
  exact hnn e' he'

/-- The values of sortedPairs are weakly ascending. -/
theorem sortedPairs_sorted (d : List (ℚ × ℚ)) :
    (sortedPairs d).Pairwise (fun a b : ℚ × ℚ => a.1 ≤ b.1) := by
  unfold sortedPairs
  exact List.Pairwise.map (fun v => (v, distGet d v)) (fun a b h => h)
    (List.sorted_insertionSort (fun a b => a ≤ b) (d.map Prod.fst))

/-- Abel-summation step for monotonicity: over pairs with ascending values
and non-negative masses filling up to total 1, the difference of the spec
sums at two exponents A1 ≤ A2 is bounded below by the head value times the
drop of the starting cumulative's powers. -/
theorem specMaxSum_mono_aux (A1 A2 : ℕ) (h12 : A1 ≤ A2) :
    ∀ (L : List (ℚ × ℚ)) (e : ℚ × ℚ) (F0 : ℚ),
      0 ≤ F0 → 0 ≤ e.2 → (∀ x ∈ L, 0 ≤ x.2) →
      F0 + e.2 + (L.map Prod.snd).sum = 1 →
      List.Chain' (fun a b : ℚ × ℚ => a.1 ≤ b.1) (e :: L) →
      e.1 * (F0 ^ A1 - F0 ^ A2) ≤
        specMaxSum A2 F0 (e :: L) - specMaxSum A1 F0 (e :: L) := by
  intro L
  induction L with
  | nil =>
    intro e F0 hF0 he hLnn hsum hchain
    have h1 : F0 + e.2 = 1 := by
      simp only [List.map_nil, List.sum_nil, add_zero] at hsum
      exact hsum
    rw [specMaxSum_cons, specMaxSum_cons, h1]
    simp only [specMaxSum, one_pow]
    ring_nf
    exact le_refl _
  | cons e' L' ih =>
    intro e F0 hF0 he hLnn hsum hchain
    have he' : 0 ≤ e'.2 := hLnn e' (List.mem_cons_self _ _)
    have hL'nn : ∀ x ∈ L', 0 ≤ x.2 := fun x hx => hLnn x (List.mem_cons_of_mem _ hx)
    have hsum' : (F0 + e.2) + e'.2 + (L'.map Prod.snd).sum = 1 := by
      simp only [List.map_cons, List.sum_cons] at hsum
      linarith
    obtain ⟨hee', hchain'⟩ := List.chain'_cons.mp hchain
    have hF1nn : 0 ≤ F0 + e.2 := add_nonneg hF0 he
    have hF1le : F0 + e.2 ≤ 1 := by
      have hs : 0 ≤ (L'.map Prod.snd).sum := by
        apply List.sum_nonneg
        intro x hx
        obtain ⟨y, hy, rfl⟩ := List.mem_map.mp hx
        exact hL'nn y hy
      linarith
    have hpow : (F0 + e.2) ^ A2 ≤ (F0 + e.2) ^ A1 :=
      pow_le_pow_of_le_one hF1nn hF1le h12
    have hIH := ih e' (F0 + e.2) hF1nn he' hL'nn hsum' hchain'
    have hkey : e.1 * ((F0 + e.2) ^ A1 - (F0 + e.2) ^ A2) ≤
        e'.1 * ((F0 + e.2) ^ A1 - (F0 + e.2) ^ A2) :=
      mul_le_mul_of_nonneg_right hee' (by linarith)
    rw [specMaxSum_cons A1 F0, specMaxSum_cons A2 F0]
    nlinarith [hIH, hkey]

/-- C1: on a finite distribution with distinct keys, non-negative masses
summing to 1, and A ≥ 1, calculateMaxExpectation returns the spec formula
Σ_i v_i (F_i^A - F_{i-1}^A) over the values in ascending order; and on a
single-point distribution it returns that point's value for every A. -/
theorem calculateMaxExpectation_spec (d : List (ℚ × ℚ)) (A : ℕ) (hA : 1 ≤ A)
    (hkeys : (d.map Prod.fst).Nodup) (hnn : ∀ e ∈ d, 0 ≤ e.2)
    (hsum : (d.map Prod.snd).sum = 1) :
    calculateMaxExpectation d A = specMaxSum A 0 (sortedPairs d) ∧
    (∀ v π, d = [(v, π)] → calculateMaxExpectation d A = v) := by
  constructor
  · rcases d with _ | ⟨x, _ | ⟨y, t⟩⟩
    · simp at hsum
    · have hx : x.2 = 1 := by simpa using hsum
      have hL : calculateMaxExpectation [x] A = x.1 := rfl
      have hR : specMaxSum A 0 (sortedPairs [x]) = x.1 := by
        show specMaxSum A 0 [(x.1, distGet [x] x.1)] = x.1
        rw [distGet_eq hkeys (List.mem_singleton_self x), specMaxSum_cons, hx]
        simp [zero_pow (show A ≠ 0 by omega), specMaxSum_nil]
      rw [hL, hR]
    · exact calculateMaxExpectation_eq _ A (by simp)
  · rintro v π rfl
    rfl

/-- C8: calculateMaxExpectation is monotonically non-decreasing in A on a
fixed distribution with distinct keys, non-negative masses summing to 1
and at least two distinct values of positive mass. -/
theorem calculateMaxExpectation_mono (d : List (ℚ × ℚ)) (A1 A2 : ℕ) (hA1 : 1 ≤ A1)
    (h12 : A1 ≤ A2) (hkeys : (d.map Prod.fst).Nodup) (hnn : ∀ e ∈ d, 0 ≤ e.2)
    (hsum : (d.map Prod.snd).sum = 1)
    (hpos : ∃ e1 ∈ d, ∃ e2 ∈ d, e1.1 ≠ e2.1 ∧ 0 < e1.2 ∧ 0 < e2.2) :
    calculateMaxExpectation d A1 ≤ calculateMaxExpectation d A2 := by
  obtain ⟨e1, he1, e2, he2, hne, hp1, hp2⟩ := hpos
  have hlen : 2 ≤ d.length := by
    rcases d with _ | ⟨x, _ | ⟨y, t⟩⟩
    · cases he1
    · rw [List.mem_singleton.mp he1, List.mem_singleton.mp he2] at hne
      exact absurd rfl hne
    · simp
  rw [calculateMaxExpectation_eq d A1 hlen, calculateMaxExpectation_eq d A2 hlen]
  have hsp : sortedPairs d ≠ [] := by
    unfold sortedPairs
    intro h
    have := congrArg List.length h
    rw [List.length_map, (List.perm_insertionSort _ _).length_eq, List.length_map] at this
    simp only [List.length_nil] at this
    omega
  obtain ⟨e, L, hEL⟩ := List.exists_cons_of_ne_nil hsp
  have hchain : List.Chain' (fun a b : ℚ × ℚ => a.1 ≤ b.1) (e :: L) :=
    hEL ▸ (sortedPairs_sorted d).chain'
  have hnn' : ∀ x ∈ (e :: L), 0 ≤ x.2 := hEL ▸ sortedPairs_nonneg d hkeys hnn
  have hsum' : (((e :: L) : List (ℚ × ℚ)).map Prod.snd).sum = 1 :=
    hEL ▸ ((sortedPairs_masses_perm d hkeys).sum_eq.trans hsum)
  have hsum'' : (0 : ℚ) + e.2 + (L.map Prod.snd).sum = 1 := by
    simp only [List.map_cons, List.sum_cons] at hsum'
    linarith
  have haux := specMaxSum_mono_aux A1 A2 h12 L e 0 (le_refl 0)
    (hnn' e (List.mem_cons_self _ _)) (fun x hx => hnn' x (List.mem_cons_of_mem _ hx))
    hsum'' hchain
  rw [hEL]
  have h01 : (0 : ℚ) ^ A1 = 0 := zero_pow (by omega)
  have h02 : (0 : ℚ) ^ A2 = 0 := zero_pow (by omega)
  rw [h01, h02] at haux
  linarith

/-! ## Structure of the sensitivity sweep -/

/-- A filterMap whose function always succeeds on the list is a map. -/
theorem filterMap_eq_map_of_forall {α β : Type} (l : List α) (f : α → Option β) (g : α → β)
    (h : ∀ a ∈ l, f a = some (g a)) : l.filterMap f = l.map g := by
  induction l with
  | nil => rfl
  | cons x t ih =>
    rw [List.filterMap_cons, h x (List.mem_cons_self _ _), List.map_cons,
      ih (fun a ha => h a (List.mem_cons_of_mem _ ha))]

/-- For C ≥ 1 and positive step, in exact arithmetic no grid point needs
clamping and every grid point is feasible, so sensitivityAnalysis is the
full grid of points p = i·step for i = 0..⌊maxP/step⌋ followed by the
extra point at maxP when the last grid point falls strictly short of
maxP. -/
theorem sensitivityAnalysis_eq (N A : ℕ) (C step : ℚ) (hC : 1 ≤ C) (hstep : 0 < step) :
    sensitivityAnalysis N A C step =
      (List.range ((⌊min 1 ((C - 1) / 2) / step⌋ + 1).toNat)).map (fun (i : ℕ) =>
        ⟨(i : ℚ) * step, calculateR ((i : ℚ) * step) C,
         calculateMaxExpectation
           (calculateSDistribution N ((i : ℚ) * step) (calculateR ((i : ℚ) * step) C)) A⟩) ++
      (if (⌊min 1 ((C - 1) / 2) / step⌋ : ℚ) * step < min 1 ((C - 1) / 2) then
        [⟨min 1 ((C - 1) / 2), calculateR (min 1 ((C - 1) / 2)) C,
          calculateMaxExpectation
            (calculateSDistribution N (min 1 ((C - 1) / 2))
              (calculateR (min 1 ((C - 1) / 2)) C)) A⟩]
      else []) := by
  have hstep' : step ≠ 0 := ne_of_gt hstep
  have hmaxP0 : (0 : ℚ) ≤ min 1 ((C - 1) / 2) := le_min (by norm_num) (by linarith)
  have hmaxPle : min 1 ((C - 1) / 2) ≤ (C - 1) / 2 := min_le_right _ _
  have hn0 : 0 ≤ ⌊min 1 ((C - 1) / 2) / step⌋ :=
    Int.floor_nonneg.mpr (div_nonneg hmaxP0 hstep.le)
  have hfeas : ∀ p : ℚ, p ≤ min 1 ((C - 1) / 2) → calculateExpectationForP p N A C =
      some (calculateMaxExpectation (calculateSDistribution N p (calculateR p C)) A) := by
    intro p hp
    have h1 : ¬ calculateR p C < 1 := by
      simp only [calculateR, not_lt]
      linarith
    simp [calculateExpectationForP, h1]
  have hgrid : ∀ i ∈ List.range ((⌊min 1 ((C - 1) / 2) / step⌋ + 1).toNat),
      (i : ℚ) * step ≤ min 1 ((C - 1) / 2) := by
    intro i hi
    rw [List.mem_range] at hi
    have hi' : (i : ℤ) ≤ ⌊min 1 ((C - 1) / 2) / step⌋ := by omega
    have hq : (i : ℚ) ≤ min 1 ((C - 1) / 2) / step :=
      le_trans (by exact_mod_cast hi') (Int.floor_le _)
    calc (i : ℚ) * step ≤ (min 1 ((C - 1) / 2) / step) * step :=
          mul_le_mul_of_nonneg_right hq hstep.le
      _ = min 1 ((C - 1) / 2) := div_mul_cancel₀ _ hstep'
  simp only [sensitivityAnalysis, if_neg (not_lt.mpr hC)]
  congr 1
  · apply filterMap_eq_map_of_forall
    intro i hi
    have hle := hgrid i hi
    rw [if_neg (not_lt.mpr hle), hfeas _ hle]
  · by_cases hcond : (⌊min 1 ((C - 1) / 2) / step⌋ : ℚ) * step < min 1 ((C - 1) / 2)
    · rw [if_pos hcond, if_pos hcond, hfeas _ (le_refl _)]
    · rw [if_neg hcond, if_neg hcond]

/-- C10 (implicit): for step > 0 the sensitivity sweep always returns a
non-empty list (the point at p = 0 is always feasible when C ≥ 1, and the
C < 1 fallback is a single point), with strictly increasing p values. -/
theorem sensitivityAnalysis_invariants (N A : ℕ) (hN : 1 ≤ N) (hA : 1 ≤ A) (C step : ℚ)
    (hstep : 0 < step) :
    sensitivityAnalysis N A C step ≠ [] ∧
    ((sensitivityAnalysis N A C step).map SensitivityPoint.p).Pairwise
      (fun a b : ℚ => a < b) := by
  by_cases hC : C < 1
  · constructor
    · simp [sensitivityAnalysis, hC]
    · simp [sensitivityAnalysis, hC]
  · have hC' : 1 ≤ C := not_lt.mp hC
    have hstep' : step ≠ 0 := ne_of_gt hstep
    have hmaxP0 : (0 : ℚ) ≤ min 1 ((C - 1) / 2) :=
      le_min (by norm_num) (by linarith)
    have hn0 : 0 ≤ ⌊min 1 ((C - 1) / 2) / step⌋ :=
      Int.floor_nonneg.mpr (div_nonneg hmaxP0 hstep.le)
    rw [sensitivityAnalysis_eq N A C step hC' hstep]
    constructor
    · intro hemp
      rcases List.append_eq_nil.mp hemp with ⟨h1, _⟩
      have := congrArg List.length h1
      simp only [List.length_map, List.length_range, List.length_nil] at this
      omega
    · rw [List.map_append, List.map_map]
      have hpg : ((List.range ((⌊min 1 ((C - 1) / 2) / step⌋ + 1).toNat)).map
          (fun (i : ℕ) => (i : ℚ) * step)).Pairwise (fun a b : ℚ => a < b) := by
        refine List.Pairwise.map _ ?_ (List.pairwise_lt_range _)
        intro a b hab
        exact mul_lt_mul_of_pos_right (by exact_mod_cast hab) hstep
      have hcomp : (SensitivityPoint.p ∘ (fun (i : ℕ) =>
          (⟨(i : ℚ) * step, calculateR ((i : ℚ) * step) C,
            calculateMaxExpectation
              (calculateSDistribution N ((i : ℚ) * step) (calculateR ((i : ℚ) * step) C)) A⟩ :
            SensitivityPoint))) = (fun (i : ℕ) => (i : ℚ) * step) := rfl
      rw [hcomp]
      rw [List.pairwise_append]
      refine ⟨hpg, ?_, ?_⟩
      · by_cases hcond : (⌊min 1 ((C - 1) / 2) / step⌋ : ℚ) * step < min 1 ((C - 1) / 2) <;>
          simp [hcond]
      · intro a ha b hb
        by_cases hcond : (⌊min 1 ((C - 1) / 2) / step⌋ : ℚ) * step < min 1 ((C - 1) / 2)
        · rw [if_pos hcond] at hb
          simp only [List.map_cons, List.map_nil, List.mem_singleton] at hb
          obtain ⟨i, hi, rfl⟩ := List.mem_map.mp ha
          rw [List.mem_range] at hi
          have hi' : (i : ℤ) ≤ ⌊min 1 ((C - 1) / 2) / step⌋ := by omega
          have hq : (i : ℚ) ≤ (⌊min 1 ((C - 1) / 2) / step⌋ : ℚ) := by exact_mod_cast hi'
          have : (i : ℚ) * step ≤ (⌊min 1 ((C - 1) / 2) / step⌋ : ℚ) * step :=
            mul_le_mul_of_nonneg_right hq hstep.le
          rw [hb]
          exact lt_of_le_of_lt this hcond
        · rw [if_neg hcond] at hb
          simp at hb

/-- Spec-side restatement of the sampling contract, written from the
claim's wording: evaluate the grid p = i·step for i = 0..⌊maxP/step⌋
(p clamped to maxP if it would exceed it), keep the point
(p, C - 2p, expectation) exactly when the expectation is not the
negative-infinity sentinel, and append one extra point at exactly maxP
when the last grid point falls strictly short of maxP. -/
def sampleSpec (N A : ℕ) (C step : ℚ) : List SensitivityPoint :=
  let maxP : ℚ := min 1 ((C - 1) / 2)
  let numSteps : ℤ := ⌊maxP / step⌋
  ((List.range (numSteps + 1).toNat).filterMap (fun (i : ℕ) =>
    let p := min ((i : ℚ) * step) maxP
    match calculateExpectationForP p N A C with
    | none => none
    | some e => some ⟨p, C - 2 * p, e⟩)) ++
  (if (numSteps : ℚ) * step < maxP then
    match calculateExpectationForP maxP N A C with
    | none => []
    | some e => [⟨maxP, C - 2 * maxP, e⟩]
  else [])

/-- C7: for C ≥ 1 and step > 0 the sweep follows the claimed grid contract
(sampleSpec); for C < 1 it is the single fallback point; and the concrete
scenario sample(10, 5, 3, 0.1) covers exactly p = 0, 0.1, ..., 1.0. -/
theorem sensitivityAnalysis_contract (N A : ℕ) (hN : 1 ≤ N) (hA : 1 ≤ A) (C step : ℚ)
    (hstep : 0 < step) :
    (1 ≤ C → sensitivityAnalysis N A C step = sampleSpec N A C step) ∧
    (C < 1 → sensitivityAnalysis N A C step = [⟨0, 1, (N : ℚ)⟩]) ∧
    (sensitivityAnalysis 10 5 3 (1 / 10)).map SensitivityPoint.p =
      [0, 1 / 10, 1 / 5, 3 / 10, 2 / 5, 1 / 2, 3 / 5, 7 / 10, 4 / 5, 9 / 10, 1] := by
  refine ⟨?_, ?_, ?_⟩
  · intro hC
    simp only [sensitivityAnalysis, sampleSpec, if_neg (not_lt.mpr hC)]
    congr 1
    · congr 1
      funext i
      have hmin : (if (i : ℚ) * step > min 1 ((C - 1) / 2) then min 1 ((C - 1) / 2)
          else (i : ℚ) * step) = min ((i : ℚ) * step) (min 1 ((C - 1) / 2)) := by
        rcases lt_or_le (min 1 ((C - 1) / 2)) ((i : ℚ) * step) with h | h
        · rw [if_pos h, min_eq_right h.le]
        · rw [if_neg (not_lt.mpr h), min_eq_left h]
      rw [hmin]
      simp only [calculateR]
  · intro hC
    simp [sensitivityAnalysis, hC]
  · rw [sensitivityAnalysis_eq 10 5 3 (1 / 10) (by norm_num) (by norm_num)]
    have hm : min (1 : ℚ) ((3 - 1) / 2) = 1 := by norm_num
    rw [hm]
    have hfl : ⌊(1 : ℚ) / (1 / 10)⌋ = 10 := by norm_num
    rw [hfl]
    have hcond : ¬ (((10 : ℤ) : ℚ) * (1 / 10) < 1) := by norm_num
    rw [if_neg hcond, List.append_nil, List.map_map]
    have htn : ((10 : ℤ) + 1).toNat = 11 := rfl
    rw [htn]
    have hr : List.range 11 = [0, 1, 2, 3, 4, 5, 6, 7, 8, 9, 10] := rfl
    rw [hr]
    simp only [List.map_cons, List.map_nil, Function.comp_apply]
    norm_num

/-! ## Concrete witnesses -/

/-- Witness for C1 at the distribution (2, 1/4), (4, 1/2), (6, 1/4) with
A = 2. -/
theorem calculateMaxExpectation_spec_witness :
    (([((2 : ℚ), (1 / 4 : ℚ)), (4, 1 / 2), (6, 1 / 4)].map Prod.snd).sum = 1) ∧
    calculateMaxExpectation [((2 : ℚ), (1 / 4 : ℚ)), (4, 1 / 2), (6, 1 / 4)] 2 =
      specMaxSum 2 0 (sortedPairs [((2 : ℚ), (1 / 4 : ℚ)), (4, 1 / 2), (6, 1 / 4)]) :=
  ⟨by norm_num,
   (calculateMaxExpectation_spec [((2 : ℚ), (1 / 4 : ℚ)), (4, 1 / 2), (6, 1 / 4)] 2
     (by norm_num)
     (by simp only [List.map_cons, List.map_nil, List.nodup_cons, List.mem_cons]; norm_num)
     (by intro e he; fin_cases he <;> norm_num)
     (by norm_num)).1⟩

/-- Witness for C2 at N = 2, p = 1/2, r = 3. -/
theorem calculateSDistribution_spec_witness :
    (1 ≤ 2) ∧
    calculateSDistribution 2 (1 / 2) 3 = [(2, 1 / 4), (4, 1 / 2), (6, 1 / 4)] :=
  ⟨by omega, (calculateSDistribution_spec 2 (by omega) (1 / 2) 3).2.2.2⟩

/-- Witness for C3 at N = 1, A = 1, C = 2, tolerance = 1. -/
theorem findOptimalP_invariants_witness :
    ((0 : ℚ) < 1) ∧ ((1 : ℚ) ≤ 2) ∧
    ((findOptimalP 1 1 2 1).optimalR = 2 - 2 * (findOptimalP 1 1 2 1).optimalP ∧
     1 ≤ (findOptimalP 1 1 2 1).optimalR ∧
     0 ≤ (findOptimalP 1 1 2 1).optimalP ∧
     (findOptimalP 1 1 2 1).optimalP ≤ min 1 ((2 - 1) / 2)) :=
  ⟨by norm_num, by norm_num,
   (findOptimalP_invariants 1 1 (le_refl 1) (le_refl 1) 2 1 (by norm_num)).1 (by norm_num)⟩

/-- Witness for C4 at p = 0, C = 0, N = 1, A = 1 (an infeasible point). -/
theorem calculateExpectationForP_spec_witness :
    (calculateExpectationForP 0 1 1 0 = none ↔ (0 : ℚ) - 2 * 0 < 1) :=
  (calculateExpectationForP_spec 0 0 1 1 (le_refl 1) (le_refl 1)).1

/-- Witness for C5 at N = 1, A = 1, C = 0, tolerance = 0. -/
theorem findOptimalP_lowC_witness :
    ((0 : ℚ) < 1) ∧ findOptimalP 1 1 0 0 =
      { optimalP := 0, optimalR := 1, maxExpectation := some ((1 : ℕ) : ℚ) } :=
  ⟨by norm_num, findOptimalP_lowC 1 1 (le_refl 1) (le_refl 1) 0 0 (by norm_num)⟩

/-- Witness for the amended C6 at N = 1, A = 1, C = 1, tolerance = 1. -/
theorem roundTrip_highC_witness :
    ((0 : ℚ) < 1) ∧ ((1 : ℚ) ≤ 1) ∧
    calculateR (findOptimalP 1 1 1 1).optimalP 1 = (findOptimalP 1 1 1 1).optimalR :=
  ⟨by norm_num, le_refl 1,
   roundTrip_highC 1 1 (le_refl 1) (le_refl 1) 1 1 (by norm_num) (le_refl 1)⟩

/-- Witness for C7: the concrete sweep sample(10, 5, 3, 0.1) covers
exactly p = 0, 0.1, ..., 1.0. -/
theorem sensitivityAnalysis_contract_witness :
    ((0 : ℚ) < 1) ∧
    (sensitivityAnalysis 10 5 3 (1 / 10)).map SensitivityPoint.p =
      [0, 1 / 10, 1 / 5, 3 / 10, 2 / 5, 1 / 2, 3 / 5, 7 / 10, 4 / 5, 9 / 10, 1] :=
  ⟨by norm_num,
   (sensitivityAnalysis_contract 1 1 (le_refl 1) (le_refl 1) 1 1 (by norm_num)).2.2⟩

/-- Witness for C8 at the distribution (2, 1/4), (4, 1/2), (6, 1/4) with
A1 = 1, A2 = 2. -/
theorem calculateMaxExpectation_mono_witness :
    calculateMaxExpectation [((2 : ℚ), (1 / 4 : ℚ)), (4, 1 / 2), (6, 1 / 4)] 1 ≤
    calculateMaxExpectation [((2 : ℚ), (1 / 4 : ℚ)), (4, 1 / 2), (6, 1 / 4)] 2 :=
  calculateMaxExpectation_mono [((2 : ℚ), (1 / 4 : ℚ)), (4, 1 / 2), (6, 1 / 4)] 1 2
    (le_refl 1) (by omega)
    (by simp only [List.map_cons, List.map_nil, List.nodup_cons, List.mem_cons]; norm_num)
    (by intro e he; fin_cases he <;> norm_num)
    (by norm_num)
    (by refine ⟨(2, 1 / 4), by simp, (4, 1 / 2), by simp, ?_, ?_, ?_⟩ <;> norm_num)

/-- Witness for C9 at N = 1, A = 1, C = 2, tolerance = 1/2 with n = 0
iterations of fuel (the initial width 1/2 is already within tolerance). -/
theorem findOptimalP_terminates_witness :
    ((0 : ℚ) < 1 / 2) ∧
    findOptimalP 1 1 2 (1 / 2) =
      (let lr := ternaryLoopFuel (fun p => calculateExpectationForP p 1 1 2) (1 / 2) 0 0
          (min 1 ((2 - 1) / 2))
       let optimalP := (lr.1 + lr.2) / 2
       { optimalP := optimalP
         optimalR := calculateR optimalP 2
         maxExpectation := calculateExpectationForP optimalP 1 1 2 }) :=
  ⟨by norm_num,
   (findOptimalP_terminates 1 1 2 (1 / 2) (by norm_num) 0).2 (by norm_num) (by norm_num)⟩

/-- Witness for C10 at N = 1, A = 1, C = 0, step = 1. -/
theorem sensitivityAnalysis_invariants_witness :
    sensitivityAnalysis 1 1 0 1 ≠ [] ∧
    ((sensitivityAnalysis 1 1 0 1).map SensitivityPoint.p).Pairwise
      (fun a b : ℚ => a < b) :=
  sensitivityAnalysis_invariants 1 1 (le_refl 1) (le_refl 1) 0 1 (by norm_num)

end ProbOpt
